import Mathlib

/-
Formal model of the core of the Context-Based-File-Search repository
(src/search/: ids.py, storage.py, indexer.py, retriever.py, snippets.py,
api.py), with theorems checking the natural-language specification
against it.

Conventions of the shallow embedding:
- Python str is modelled as List Char; bytes as List Nat.
- Python float scores and weights are modelled as exact rationals.
- Python dict (insertion-ordered) is modelled as an association list in
  insertion order; dict lookup is the first matching key.
- External collaborators that the repository only calls (hashlib.sha1 and
  sha256, str.encode, uuid.uuid5, the text extractors, the filesystem) are
  taken as function parameters, since their internals are not part of this
  code base.
-/

namespace CBFS

/- ===================== Python string primitives ===================== -/

/-- Python str.lower(), modelled character by character. -/
def pyLower (s : List Char) : List Char :=
  s.map Char.toLower

/-- Python str.strip(): remove leading and trailing whitespace. -/
def pyStrip (s : List Char) : List Char :=
  ((s.dropWhile Char.isWhitespace).reverse.dropWhile Char.isWhitespace).reverse

/-- Helper for pySplit: walks the characters with an accumulator holding the
current (reversed) token. -/
def pySplitAux : List Char → List Char → List (List Char)
  | [], acc => if acc = [] then [] else [acc.reverse]
  | c :: cs, acc =>
    if c.isWhitespace then
      if acc = [] then pySplitAux cs [] else acc.reverse :: pySplitAux cs []
    else
      pySplitAux cs (c :: acc)

/-- Python str.split() with no argument: split on runs of whitespace,
dropping empty pieces. -/
def pySplit (s : List Char) : List (List Char) :=
  pySplitAux s []

/-- Python str.find(pat) as an Option: index of the first occurrence of pat,
none when pat does not occur (Python returns -1 there). Like Python, the
empty pattern is found at index 0. -/
def pyFind (s pat : List Char) : Option Nat :=
  (List.range (s.length + 1)).find? (fun i => (s.drop i).take pat.length == pat)

/-- Python sep.join(pieces). -/
def joinSep (sep : List Char) : List (List Char) → List Char
  | [] => []
  | [w] => w
  | w :: ws => w ++ sep ++ joinSep sep ws

/-- First-occurrence deduplication; models iterating over a Python set built
from a list while keeping a definite order (CPython set iteration order is
unspecified; every claim settled here is insensitive to that order). -/
def dedupFirst {α : Type} [DecidableEq α] : List α → List α
  | [] => []
  | a :: as => a :: (dedupFirst as).filter (fun b => b ≠ a)

/- Basic facts about the string primitives. -/

theorem pySplitAux_forall (s : List Char) :
    ∀ acc : List Char, (∀ c ∈ acc, ¬ c.isWhitespace) →
      ∀ w ∈ pySplitAux s acc, w ≠ [] ∧ ∀ c ∈ w, ¬ c.isWhitespace := by
  induction s with
  | nil =>
    intro acc hacc w hw
    by_cases h : acc = []
    · simp [pySplitAux, h] at hw
    · simp only [pySplitAux, if_neg h, List.mem_singleton] at hw
      subst hw
      refine ⟨by simpa using h, ?_⟩
      intro c hc
      exact hacc c (List.mem_reverse.mp hc)
  | cons x xs ih =>
    intro acc hacc w hw
    by_cases hx : x.isWhitespace
    · by_cases h : acc = []
      · simp only [pySplitAux, if_pos hx, if_pos h] at hw
        exact ih [] (by simp) w hw
      · simp only [pySplitAux, if_pos hx, if_neg h, List.mem_cons] at hw
        rcases hw with hw | hw
        · subst hw
          refine ⟨by simpa using h, ?_⟩
          intro c hc
          exact hacc c (List.mem_reverse.mp hc)
        · exact ih [] (by simp) w hw
    · simp only [pySplitAux, if_neg hx] at hw
      refine ih (x :: acc) ?_ w hw
      intro c hc
      rcases List.mem_cons.mp hc with h | h
      · subst h; exact hx
      · exact hacc c h

/-- Every token produced by pySplit is non-empty and whitespace-free. -/
theorem pySplit_tokens (s : List Char) :
    ∀ w ∈ pySplit s, w ≠ [] ∧ ∀ c ∈ w, ¬ c.isWhitespace :=
  pySplitAux_forall s [] (by simp)

/-- A string containing a non-whitespace character has a non-empty strip. -/
theorem pyStrip_ne_nil {s : List Char} {c : Char}
    (hc : c ∈ s) (hw : ¬ c.isWhitespace) : pyStrip s ≠ [] := by
  unfold pyStrip
  intro h
  have h2 : (s.dropWhile Char.isWhitespace).reverse.dropWhile Char.isWhitespace = [] := by
    simpa using congrArg List.reverse h
  have h3 : ∀ x ∈ (s.dropWhile Char.isWhitespace).reverse, x.isWhitespace :=
    fun x hx => by
      have := List.dropWhile_eq_nil_iff.mp h2
      simpa using this x hx
  have h4 : ∀ x ∈ s.dropWhile Char.isWhitespace, x.isWhitespace :=
    fun x hx => h3 x (List.mem_reverse.mpr hx)
  by_cases h5 : c ∈ s.dropWhile Char.isWhitespace
  · exact hw (h4 c h5)
  · -- c was removed by dropWhile, so it is whitespace after all
    have : s.dropWhile Char.isWhitespace = [] ∨ c ∈ s.takeWhile Char.isWhitespace := by
      have hsplit := List.takeWhile_append_dropWhile (p := Char.isWhitespace) (l := s)
      rcases List.mem_append.mp (by rw [hsplit]; exact hc) with h | h
      · exact Or.inr h
      · exact absurd h h5
    rcases this with h6 | h6
    · -- then every char of s is whitespace
      have : ∀ x ∈ s, x.isWhitespace := by
        intro x hx
        have hsplit := List.takeWhile_append_dropWhile (p := Char.isWhitespace) (l := s)
        rcases List.mem_append.mp (by rw [hsplit]; exact hx) with h | h
        · exact List.mem_takeWhile_imp h
        · rw [h6] at h; simp at h
      exact hw (this c hc)
    · exact hw (List.mem_takeWhile_imp h6)

/-- A member of a joined list of pieces whose first piece is non-empty:
the head characters of the pieces stay in the join. -/
theorem joinSep_mem {sep : List Char} {w : List Char} {ws : List (List Char)}
    {c : Char} (hc : c ∈ w) : c ∈ joinSep sep (w :: ws) := by
  cases ws with
  | nil => simpa [joinSep] using hc
  | cons y ys => simp [joinSep, hc]

/- ===================== C9: file identifiers ===================== -/

/-- src/search/ids.py, file_id: SHA-1 hex digest of "path|mtime|size".
hashlib.sha1 is an external library call, taken as the parameter sha1hex. -/
def ids_file_id (sha1hex : String → String) (path : String) (mtime size : Int) : String :=
  sha1hex (path ++ "|" ++ toString mtime ++ "|" ++ toString size)

/-- src/search/storage.py, Catalog._generate_file_id: SHA-1 hex digest of
"path|mtime|size", with the same external hashlib.sha1 parameter. -/
def catalog_generate_file_id (sha1hex : String → String) (path : String) (mtime size : Int) : String :=
  sha1hex (path ++ "|" ++ toString mtime ++ "|" ++ toString size)

/-- src/search/storage.py, Catalog.upsert_file key computation: upsert_file
(path, size, mtime, sha256) stores its row under
_generate_file_id(path, mtime, size) and returns that key. -/
def upsert_file_key (sha1hex : String → String) (path : String) (size mtime : Int) : String :=
  catalog_generate_file_id sha1hex path mtime size

/-- C9: Catalog._generate_file_id computes exactly ids.file_id — both are the
SHA-1 hex digest of "path|mtime|size" — so the row key returned by
upsert_file(path, size, mtime, sha) coincides with the fid
file_id(path, mtime, size) that the indexer precomputes and uses for its
chunks, whatever the external SHA-1 function is. -/
theorem upsert_key_matches_indexer_fid (sha1hex : String → String)
    (path : String) (mtime size : Int) :
    catalog_generate_file_id sha1hex path mtime size = ids_file_id sha1hex path mtime size ∧
    upsert_file_key sha1hex path size mtime = ids_file_id sha1hex path mtime size :=
  ⟨rfl, rfl⟩

/- ===================== C10: snippets ===================== -/

/-- src/search/snippets.py, _find_best_match: exact lowercase phrase match if
possible, else the earliest occurrence of any lowercased query word, else no
match (Python -1 is modelled as none). -/
def find_best_match (text query : List Char) : Option Nat :=
  let text_lower := pyLower text
  let query_lower := pyLower query
  match pyFind text_lower query_lower with
  | some pos => some pos
  | none =>
    let query_words := pySplit query_lower
    if query_words = [] then none
    else
      let earliest_pos := query_words.foldl (fun acc w =>
        match pyFind text_lower w with
        | some pos => if pos < acc then pos else acc
        | none => acc) text.length
      if earliest_pos < text.length then some earliest_pos else none

/-- src/search/snippets.py, make_snippet: windowed excerpt around the best
match with ellipses, or the first 2*radius characters when there is no match
or the inputs are empty. Python max(0, pos - radius) is Nat subtraction. -/
def make_snippet (chunk_text query : List Char) (radius : Nat) :
    List Char × Nat × Nat :=
  if chunk_text = [] ∨ query = [] then
    (chunk_text.take (radius * 2), 0, min (radius * 2) chunk_text.length)
  else
    match find_best_match chunk_text query with
    | none => (chunk_text.take (radius * 2), 0, min (radius * 2) chunk_text.length)
    | some match_pos =>
      let start_pos := match_pos - radius
      let end_pos := min chunk_text.length (match_pos + query.length + radius)
      let snippet := (chunk_text.drop start_pos).take (end_pos - start_pos)
      let snippet := if 0 < start_pos then '.' :: '.' :: '.' :: snippet else snippet
      let snippet := if end_pos < chunk_text.length then snippet ++ ['.', '.', '.'] else snippet
      (snippet, start_pos, end_pos)

/-- When no query word occurs in the text, the fold in _find_best_match never
lowers the initial value. -/
theorem foldl_earliest_of_none (tl : List Char) (n : Nat) :
    ∀ ws : List (List Char), (∀ w ∈ ws, pyFind tl w = none) →
      ws.foldl (fun acc w =>
        match pyFind tl w with
        | some pos => if pos < acc then pos else acc
        | none => acc) n = n := by
  intro ws
  induction ws generalizing n with
  | nil => intro _; rfl
  | cons w ws ih =>
    intro h
    have hw : pyFind tl w = none := h w (by simp)
    have hrest : ∀ u ∈ ws, pyFind tl u = none := fun u hu => h u (by simp [hu])
    simp only [List.foldl_cons, hw]
    exact ih n hrest

/-- C10: when the lowercased query phrase does not occur in the lowercased
text and no lowercased query word occurs either (and likewise when the query
is empty), make_snippet falls back to the beginning of the text: it returns
the first 2*radius characters with positions (0, min(2*radius, len(text))),
and those positions satisfy 0 <= start <= end <= len(text). -/
theorem make_snippet_fallback (text query : List Char) (radius : Nat)
    (htext : text ≠ [])
    (hmiss : query = [] ∨
      (pyFind (pyLower text) (pyLower query) = none ∧
        ∀ w ∈ pySplit (pyLower query), pyFind (pyLower text) w = none)) :
    make_snippet text query radius =
      (text.take (radius * 2), 0, min (radius * 2) text.length) ∧
    0 ≤ min (radius * 2) text.length ∧ min (radius * 2) text.length ≤ text.length := by
  refine ⟨?_, Nat.zero_le _, Nat.min_le_right _ _⟩
  rcases hmiss with hq | ⟨hphrase, hwords⟩
  · simp [make_snippet, hq]
  · by_cases hq : query = []
    · simp [make_snippet, hq]
    · have hbm : find_best_match text query = none := by
        unfold find_best_match
        simp only [hphrase]
        by_cases hw : pySplit (pyLower query) = []
        · simp [hw]
        · simp only [if_neg hw]
          rw [foldl_earliest_of_none (pyLower text) text.length _ hwords]
          simp
      simp [make_snippet, htext, hq, hbm]

/-- Witness for C10 at a concrete input: text "hello world", query "zq",
radius 4. -/
theorem make_snippet_fallback_witness :
    make_snippet "hello world".toList "zq".toList 4 =
      ("hello wo".toList, 0, 8) ∧
    0 ≤ min (4 * 2) "hello world".toList.length ∧
    min (4 * 2) "hello world".toList.length ≤ "hello world".toList.length := by
  have h := make_snippet_fallback "hello world".toList "zq".toList 4
    (by decide)
    (by
      right
      constructor
      · decide
      · decide)
  refine ⟨?_, h.2.1, h.2.2⟩
  rw [h.1]
  decide

/- ===================== C5: the chunker ===================== -/

/-- src/search/types.py, Chunk: a text chunk with metadata. -/
structure Chunk where
  path : String
  file_id : String
  chunk_id : String
  text : List Char
  token_start : Nat
  token_end : Nat
  mtime : Int
  sha256 : String
  idx : Nat
deriving DecidableEq, Repr

/-- The loop of src/search/indexer.py, BFSIndexer._chunk_text. One fuel unit
is one iteration of the Python while loop; chunk_text passes words.length
fuel, which never runs out when overlap < max_tokens (the loop advances i by
max_tokens - overlap >= 1 each round, so it iterates at most words.length
times). chunkIdF models ids.chunk_id (an external uuid5 call), shaF models
hashlib.sha256 of the chunk text, mtimeV the stat mtime of the file. -/
def chunkLoop (chunkIdF : String → Nat → String) (shaF : List Char → String)
    (path : String) (fid : String) (mtimeV : Int)
    (max_tokens overlap : Nat) (words : List (List Char)) :
    Nat → Nat → Nat → List Chunk
  | 0, _, _ => []
  | fuel + 1, i, chunk_idx =>
    if i < words.length then
      let chunk_words := (words.drop i).take max_tokens
      let ctext := joinSep [' '] chunk_words
      if pyStrip ctext = [] then []
      else
        { path := path, file_id := fid, chunk_id := chunkIdF fid chunk_idx,
          text := ctext, token_start := i, token_end := i + chunk_words.length,
          mtime := mtimeV, sha256 := shaF ctext, idx := chunk_idx } ::
        chunkLoop chunkIdF shaF path fid mtimeV max_tokens overlap words
          fuel (i + (max_tokens - overlap)) (chunk_idx + 1)
    else []

/-- src/search/indexer.py, BFSIndexer._chunk_text: split the text on
whitespace and emit overlapping windows of max_tokens tokens, stepping by
max_tokens - overlap. -/
def chunk_text (chunkIdF : String → Nat → String) (shaF : List Char → String)
    (max_tokens overlap : Nat) (text : List Char) (path : String) (fid : String)
    (mtimeV : Int) : List Chunk :=
  let words := pySplit text
  chunkLoop chunkIdF shaF path fid mtimeV max_tokens overlap words
    words.length 0 0

/-- The chunk emitted for window j over the token list words: it covers
tokens [start, start + max_tokens) truncated to the end of the token list. -/
def windowChunk (chunkIdF : String → Nat → String) (shaF : List Char → String)
    (path : String) (fid : String) (mtimeV : Int)
    (max_tokens : Nat) (words : List (List Char)) (start : Nat) (j : Nat) : Chunk :=
  let chunk_words := (words.drop start).take max_tokens
  let ctext := joinSep [' '] chunk_words
  { path := path, file_id := fid, chunk_id := chunkIdF fid j,
    text := ctext, token_start := start, token_end := start + chunk_words.length,
    mtime := mtimeV, sha256 := shaF ctext, idx := j }

/-- Inside the loop the emptiness break never fires: a window of at least one
pySplit token joins to a string whose strip is non-empty. -/
theorem window_strip_ne_nil (words : List (List Char))
    (hwords : ∀ w ∈ words, w ≠ [] ∧ ∀ c ∈ w, ¬ c.isWhitespace)
    (max_tokens i : Nat) (hi : i < words.length) (hmt : 0 < max_tokens) :
    pyStrip (joinSep [' '] ((words.drop i).take max_tokens)) ≠ [] := by
  have hdrop : words.drop i ≠ [] := by
    intro h
    have := List.drop_eq_nil_iff.mp h
    omega
  obtain ⟨w, ws, hw⟩ := List.exists_cons_of_ne_nil hdrop
  have hwmem : w ∈ words := by
    have : w ∈ words.drop i := by rw [hw]; simp
    exact List.mem_of_mem_drop this
  obtain ⟨hwne, hwchars⟩ := hwords w hwmem
  obtain ⟨c, cs, hc⟩ := List.exists_cons_of_ne_nil hwne
  have hcmem : c ∈ w := by rw [hc]; simp
  have htake : (words.drop i).take max_tokens = w :: (ws.take (max_tokens - 1)) := by
    rw [hw]
    cases max_tokens with
    | zero => omega
    | succ n => simp
  rw [htake]
  exact pyStrip_ne_nil (joinSep_mem hcmem) (hwchars c hcmem)

/-- Characterization of the chunker loop: provided the step is positive, the
fuel suffices, and the tokens are pySplit tokens, entry j of the produced
list is the window starting at i + j*step, present exactly while that start
is inside the token list. -/
theorem chunkLoop_get (chunkIdF : String → Nat → String) (shaF : List Char → String)
    (path : String) (fid : String) (mtimeV : Int)
    (max_tokens overlap : Nat) (words : List (List Char))
    (hwords : ∀ w ∈ words, w ≠ [] ∧ ∀ c ∈ w, ¬ c.isWhitespace)
    (hov : overlap < max_tokens) :
    ∀ fuel i chunk_idx, words.length ≤ i + fuel * (max_tokens - overlap) →
      ∀ j : Nat,
        (chunkLoop chunkIdF shaF path fid mtimeV max_tokens overlap words
          fuel i chunk_idx)[j]? =
        if i + j * (max_tokens - overlap) < words.length then
          some (windowChunk chunkIdF shaF path fid mtimeV max_tokens words
            (i + j * (max_tokens - overlap)) (chunk_idx + j))
        else none := by
  have hstep : 0 < max_tokens - overlap := by omega
  intro fuel
  induction fuel with
  | zero =>
    intro i chunk_idx hfuel j
    have : ¬ i + j * (max_tokens - overlap) < words.length := by
      simp only [Nat.zero_mul, Nat.add_zero] at hfuel
      omega
    simp [chunkLoop, this]
  | succ fuel ih =>
    intro i chunk_idx hfuel j
    by_cases hi : i < words.length
    · have hne := window_strip_ne_nil words hwords max_tokens i hi (by omega)
      rw [chunkLoop]
      simp only [if_pos hi, if_neg hne]
      cases j with
      | zero =>
        simp [windowChunk, hi]
      | succ j =>
        have hrec := ih (i + (max_tokens - overlap)) (chunk_idx + 1)
          (by rw [Nat.succ_mul] at hfuel; omega) j
        have harith : i + (max_tokens - overlap) + j * (max_tokens - overlap) =
            i + (j + 1) * (max_tokens - overlap) := by ring
        have hidx : chunk_idx + 1 + j = chunk_idx + (j + 1) := by ring
        simp only [List.getElem?_cons_succ, hrec, harith, hidx]
    · have hge : ¬ i + j * (max_tokens - overlap) < words.length := by omega
      rw [chunkLoop]
      simp [hi, hge]

/-- C5: for every text and every configuration with overlap < max_tokens,
window j of the chunker covers tokens
[j*(max_tokens-overlap), j*(max_tokens-overlap)+max_tokens) over the
whitespace-token sequence, truncated to the remaining tokens; a window is
emitted exactly when it is non-empty (its start is inside the token list),
each emitted chunk records token_start and token_end equal to its window
bounds, and idx counts 0..n-1 in order. -/
theorem chunk_text_windows (chunkIdF : String → Nat → String)
    (shaF : List Char → String) (max_tokens overlap : Nat)
    (text : List Char) (path : String) (fid : String) (mtimeV : Int)
    (hov : overlap < max_tokens) (j : Nat) :
    (chunk_text chunkIdF shaF max_tokens overlap text path fid mtimeV)[j]? =
      (if j * (max_tokens - overlap) < (pySplit text).length then
        some (windowChunk chunkIdF shaF path fid mtimeV max_tokens (pySplit text)
          (j * (max_tokens - overlap)) j)
      else none) ∧
    ∀ c ∈ ((chunk_text chunkIdF shaF max_tokens overlap text path fid mtimeV)[j]?).toList,
      c.token_start = j * (max_tokens - overlap) ∧
      c.token_end = min (j * (max_tokens - overlap) + max_tokens) (pySplit text).length ∧
      c.idx = j := by
  have hwords := pySplit_tokens text
  have hmain := chunkLoop_get chunkIdF shaF path fid mtimeV max_tokens overlap
    (pySplit text) hwords hov (pySplit text).length 0 0
    (by
      have hstep : 0 < max_tokens - overlap := by omega
      calc (pySplit text).length
          ≤ (pySplit text).length * (max_tokens - overlap) := by
            nlinarith
        _ = 0 + (pySplit text).length * (max_tokens - overlap) := by omega) j
  have hzero : 0 + j * (max_tokens - overlap) = j * (max_tokens - overlap) := by omega
  have hj : 0 + j = j := by omega
  rw [hzero, hj] at hmain
  refine ⟨hmain, ?_⟩
  intro c hc
  have hc' : c ∈ ((chunkLoop chunkIdF shaF path fid mtimeV max_tokens overlap
      (pySplit text) (pySplit text).length 0 0)[j]?).toList := hc
  rw [hmain] at hc'
  by_cases hlt : j * (max_tokens - overlap) < (pySplit text).length
  · rw [if_pos hlt] at hc'
    simp only [Option.toList_some, List.mem_singleton] at hc'
    subst hc'
    refine ⟨rfl, ?_, rfl⟩
    simp only [windowChunk, List.length_take, List.length_drop]
    omega
  · rw [if_neg hlt] at hc'
    simp at hc'

/-- Witness for C5 at a concrete input: text "a b c d e", max_tokens 3,
overlap 1; window 1 covers tokens [2,5) and carries idx 1. -/
theorem chunk_text_windows_witness :
    1 < 3 ∧
    (chunk_text (fun _ _ => "") (fun _ => "") 3 1 "a b c d e".toList "p" "f" 0)[1]? =
      some { path := "p", file_id := "f", chunk_id := "",
             text := "c d e".toList, token_start := 2, token_end := 5,
             mtime := 0, sha256 := "", idx := 1 } := by
  refine ⟨by decide, ?_⟩
  rw [(chunk_text_windows (fun _ _ => "") (fun _ => "") 3 1
    "a b c d e".toList "p" "f" 0 (by decide) 1).1]
  decide

/- ===================== Retriever: scoring and fusion ===================== -/

/-- src/search/types.py, ScoreBreakdown. Python float scores are modelled as
exact rationals. -/
structure ScoreBreakdown where
  cosine : ℚ
  bm25 : ℚ
  exact : ℚ
  position_bonus : ℚ
  final : ℚ
deriving DecidableEq, Repr

/-- src/search/types.py, ScoredChunk. Chunk ids (uuid strings in the source)
are modelled as natural numbers. -/
structure ScoredChunk where
  chunk_id : Nat
  file_id : Nat
  path : String
  text : List Char
  score : ℚ
  score_breakdown : ScoreBreakdown
  chunk_idx : Nat
deriving DecidableEq, Repr

/-- The row returned by Catalog.chunk_meta for a chunk. -/
structure ChunkMeta where
  file_id : Nat
  path : String
  idx : Nat
deriving DecidableEq, Repr

/-- CandidateDict from src/search/types.py: chunk_id to raw score, as an
insertion-ordered association list. -/
abbrev CandidateDict := List (Nat × ℚ)

/-- Python dict lookup: the first entry with the given key. -/
def dictGet (d : CandidateDict) (k : Nat) : Option ℚ :=
  (d.find? (fun p => p.1 == k)).map Prod.snd

/-- src/search/retriever.py, HybridRetriever._normalize_scores: min-max
normalization to [0,1]; when all scores are equal the dict is returned
unchanged ("no divide-by-zero"). -/
def normalize_scores (candidates : CandidateDict) : CandidateDict :=
  match candidates with
  | [] => []
  | c :: cs =>
    let min_score := (cs.map Prod.snd).foldl min c.2
    let max_score := (cs.map Prod.snd).foldl max c.2
    if max_score = min_score then c :: cs
    else (c :: cs).map (fun p => (p.1, (p.2 - min_score) / (max_score - min_score)))

/-- src/search/retriever.py, HybridRetriever._calculate_exact_match: 1.0 on a
lowercase phrase hit, else the fraction of distinct query words present in
the text word-set when that fraction is at least 0.7, else 0. -/
def calculate_exact_match (query ctext : List Char) : ℚ :=
  let query_lower := pyStrip (pyLower query)
  let text_lower := pyLower ctext
  if (pyFind text_lower query_lower).isSome then 1
  else
    let query_words := dedupFirst (pySplit query_lower)
    let text_words := pySplit text_lower
    if query_words = [] then 0
    else
      let word_matches := (query_words.filter (fun w => w ∈ text_words)).length
      let word_frac := (word_matches : ℚ) / (query_words.length : ℚ)
      if 7/10 ≤ word_frac then word_frac else 0

/-- src/search/retriever.py, HybridRetriever._calculate_position_bonus:
1 - position/len when the lowercase query phrase first occurs within the
first 30 percent of the lowercase text, else 0. (The division is exact
rational division; merge_and_score only calls this with non-empty text.) -/
def calculate_position_bonus (query ctext : List Char) : ℚ :=
  let query_lower := pyStrip (pyLower query)
  let text_lower := pyLower ctext
  match pyFind text_lower query_lower with
  | none => 0
  | some pos =>
    let pos_frac := (pos : ℚ) / (text_lower.length : ℚ)
    if pos_frac ≤ 3/10 then 1 - pos_frac else 0

/-- Stable descending insertion by score: the inserted element goes before
every element of equal or smaller score. -/
def insertScoreDesc (x : ScoredChunk) : List ScoredChunk → List ScoredChunk
  | [] => [x]
  | y :: ys => if x.score < y.score then y :: insertScoreDesc x ys else x :: y :: ys

/-- Stable descending sort by score; models the stable Python
list.sort(key=lambda c: c.score, reverse=True). -/
def sortByScoreDesc : List ScoredChunk → List ScoredChunk
  | [] => []
  | x :: xs => insertScoreDesc x (sortByScoreDesc xs)

/-- src/search/retriever.py, HybridRetriever.merge_and_score: union the two
candidate sets, min-max normalize each channel, score every candidate whose
metadata and text are in the catalog, sort by final score descending and keep
the top merge_k. The weights and boosts dicts are passed unpacked; the
catalog lookups chunk_meta and get_chunk_text are function parameters.
CPython iterates the union set in unspecified order; it is fixed here as
first-occurrence order, and every claim settled below is insensitive to
that choice. -/
def merge_and_score (query : List Char) (vec_candidates lex_candidates : CandidateDict)
    (bm25_weight cosine_weight exact_boost early_pos_boost : ℚ)
    (chunk_meta : Nat → Option ChunkMeta) (get_chunk_text : Nat → Option (List Char))
    (merge_k : Nat) : List ScoredChunk :=
  let all_chunk_ids := dedupFirst (vec_candidates.map Prod.fst ++ lex_candidates.map Prod.fst)
  let vec_scores_norm := normalize_scores vec_candidates
  let lex_scores_norm := normalize_scores lex_candidates
  let scored_chunks := all_chunk_ids.filterMap (fun cid =>
    let cosine_score := (dictGet vec_scores_norm cid).getD 0
    let bm25_score := (dictGet lex_scores_norm cid).getD 0
    match chunk_meta cid, get_chunk_text cid with
    | some meta, some ctext =>
      if ctext = [] then none
      else
        let exact_match := calculate_exact_match query ctext
        let position_bonus := calculate_position_bonus query ctext
        let base_score := bm25_weight * bm25_score + cosine_weight * cosine_score
        let final_score := base_score + exact_boost * exact_match +
          early_pos_boost * position_bonus
        some { chunk_id := cid, file_id := meta.file_id, path := meta.path,
               text := ctext, score := final_score,
               score_breakdown := { cosine := cosine_score, bm25 := bm25_score,
                                    exact := exact_match,
                                    position_bonus := position_bonus,
                                    final := final_score },
               chunk_idx := meta.idx }
    | _, _ => none)
  (sortByScoreDesc scored_chunks).take merge_k

/- Facts about folds, sorting and normalization used for C1 and C3. -/

theorem foldl_min_le_init (l : List ℚ) (a : ℚ) : l.foldl min a ≤ a := by
  induction l generalizing a with
  | nil => exact le_refl a
  | cons x xs ih => exact le_trans (ih (min a x)) (min_le_left a x)

theorem foldl_min_le_mem (l : List ℚ) (a x : ℚ) (hx : x ∈ l) : l.foldl min a ≤ x := by
  induction l generalizing a with
  | nil => simp at hx
  | cons y ys ih =>
    rcases List.mem_cons.mp hx with h | h
    · subst h
      exact le_trans (foldl_min_le_init ys (min a x)) (min_le_right a x)
    · exact ih (min a y) h

theorem le_foldl_max_init (l : List ℚ) (a : ℚ) : a ≤ l.foldl max a := by
  induction l generalizing a with
  | nil => exact le_refl a
  | cons x xs ih => exact le_trans (le_max_left a x) (ih (max a x))

theorem le_foldl_max_mem (l : List ℚ) (a x : ℚ) (hx : x ∈ l) : x ≤ l.foldl max a := by
  induction l generalizing a with
  | nil => simp at hx
  | cons y ys ih =>
    rcases List.mem_cons.mp hx with h | h
    · subst h
      exact le_trans (le_max_right a x) (le_foldl_max_init ys (max a x))
    · exact ih (max a y) h

theorem mem_insertScoreDesc {c x : ScoredChunk} {l : List ScoredChunk} :
    c ∈ insertScoreDesc x l ↔ c = x ∨ c ∈ l := by
  induction l with
  | nil => simp [insertScoreDesc]
  | cons y ys ih =>
    simp only [insertScoreDesc]
    by_cases h : x.score < y.score
    · rw [if_pos h]
      simp only [List.mem_cons, ih]
      tauto
    · rw [if_neg h]
      simp [List.mem_cons]

theorem mem_sortByScoreDesc {c : ScoredChunk} {l : List ScoredChunk} :
    c ∈ sortByScoreDesc l ↔ c ∈ l := by
  induction l with
  | nil => simp [sortByScoreDesc]
  | cons x xs ih =>
    simp only [sortByScoreDesc, mem_insertScoreDesc, ih, List.mem_cons]

theorem dictGet_map_value (d : CandidateDict) (g : Nat × ℚ → ℚ) (k : Nat) :
    dictGet (d.map (fun p => (p.1, g p))) k =
      (d.find? (fun p => p.1 == k)).map g := by
  induction d with
  | nil => rfl
  | cons p ps ih =>
    unfold dictGet at ih ⊢
    rw [List.map_cons, List.find?_cons, List.find?_cons]
    dsimp only
    cases h : (p.1 == k) with
    | true => rfl
    | false => exact ih

/-- Values of a channel after normalization: 0 for an absent key; for a
present key they lie in [0,1] provided the channel holds two distinct scores
or all its scores already lie in [0,1]. -/
theorem normalize_scores_bounds (d : CandidateDict)
    (hd : (∃ p ∈ d, ∃ q ∈ d, p.2 ≠ q.2) ∨ (∀ p ∈ d, 0 ≤ p.2 ∧ p.2 ≤ 1)) (k : Nat) :
    0 ≤ ((dictGet (normalize_scores d) k).getD 0) ∧
      ((dictGet (normalize_scores d) k).getD 0) ≤ 1 := by
  match d with
  | [] =>
    simp [normalize_scores, dictGet]
  | c :: cs =>
    have hminmem : ∀ p ∈ c :: cs, (cs.map Prod.snd).foldl min c.2 ≤ p.2 := by
      intro p hp
      rcases List.mem_cons.mp hp with h | h
      · subst h; exact foldl_min_le_init _ _
      · exact foldl_min_le_mem _ _ _ (List.mem_map_of_mem Prod.snd h)
    have hmaxmem : ∀ p ∈ c :: cs, p.2 ≤ (cs.map Prod.snd).foldl max c.2 := by
      intro p hp
      rcases List.mem_cons.mp hp with h | h
      · subst h; exact le_foldl_max_init _ _
      · exact le_foldl_max_mem _ _ _ (List.mem_map_of_mem Prod.snd h)
    set mn := (cs.map Prod.snd).foldl min c.2 with hmn
    set mx := (cs.map Prod.snd).foldl max c.2 with hmx
    by_cases heq : mx = mn
    · -- all scores equal: the dict is returned unchanged
      have hallin : ∀ p ∈ c :: cs, 0 ≤ p.2 ∧ p.2 ≤ 1 := by
        rcases hd with ⟨p, hp, q, hq, hne⟩ | h
        · exact absurd (le_antisymm
            (le_trans (hmaxmem p hp) (heq ▸ hminmem q hq))
            (le_trans (hmaxmem q hq) (heq ▸ hminmem p hp))) hne
        · exact h
      have hnorm : normalize_scores (c :: cs) = c :: cs := by
        unfold normalize_scores
        simp only [← hmn, ← hmx, if_pos heq]
      rw [hnorm]
      unfold dictGet
      cases hfind : (c :: cs).find? (fun p => p.1 == k) with
      | none => simp
      | some p =>
        have hp := List.mem_of_find?_eq_some hfind
        simpa [hfind] using hallin p hp
    · -- two distinct scores exist: genuine min-max normalization
      have hlt : mn < mx :=
        lt_of_le_of_ne (le_trans (hminmem c (by simp)) (hmaxmem c (by simp)))
          (fun h => heq h.symm)
      have hnorm : normalize_scores (c :: cs) =
          (c :: cs).map (fun p => (p.1, (p.2 - mn) / (mx - mn))) := by
        unfold normalize_scores
        simp only [← hmn, ← hmx, if_neg heq]
      rw [hnorm, dictGet_map_value]
      cases hfind : (c :: cs).find? (fun p => p.1 == k) with
      | none => simp
      | some p =>
        have hp := List.mem_of_find?_eq_some hfind
        have hdpos : (0:ℚ) < mx - mn := by linarith
        constructor
        · show 0 ≤ (p.2 - mn) / (mx - mn)
          exact div_nonneg (by linarith [hminmem p hp]) (le_of_lt hdpos)
        · show (p.2 - mn) / (mx - mn) ≤ 1
          rw [div_le_one hdpos]
          linarith [hmaxmem p hp]

/-- The exact-match bonus always lies in [0,1]. -/
theorem calculate_exact_match_bounds (query ctext : List Char) :
    0 ≤ calculate_exact_match query ctext ∧ calculate_exact_match query ctext ≤ 1 := by
  simp only [calculate_exact_match]
  split_ifs with h1 h2 h3
  · norm_num
  · norm_num
  · have hpos : 0 < (dedupFirst (pySplit (pyStrip (pyLower query)))).length :=
      List.length_pos.mpr h2
    have hlen : 0 < ((dedupFirst (pySplit (pyStrip (pyLower query)))).length : ℚ) := by
      exact_mod_cast hpos
    have hle : (((dedupFirst (pySplit (pyStrip (pyLower query)))).filter
        (fun w => w ∈ pySplit (pyLower ctext))).length : ℚ) ≤
        ((dedupFirst (pySplit (pyStrip (pyLower query)))).length : ℚ) := by
      exact_mod_cast List.length_filter_le _ _
    constructor
    · positivity
    · rw [div_le_one hlen]
      exact hle
  · norm_num

/-- The early-position bonus always lies in [0,1]. -/
theorem calculate_position_bonus_bounds (query ctext : List Char) :
    0 ≤ calculate_position_bonus query ctext ∧
      calculate_position_bonus query ctext ≤ 1 := by
  simp only [calculate_position_bonus]
  cases hfind : pyFind (pyLower ctext) (pyStrip (pyLower query)) with
  | none => norm_num
  | some pos =>
    dsimp only
    have hfrac0 : 0 ≤ (pos : ℚ) / ((pyLower ctext).length : ℚ) := by positivity
    split_ifs with h
    · exact ⟨by linarith, by linarith⟩
    · norm_num

/-- C1 (amended): for every pair of candidate maps and every chunk the fuser
returns, the final score equals bm25_weight*b + cosine_weight*c +
exact_boost*e + early_pos_boost*p where b and c are the min-max-normalized
channel scores (0 for a channel the candidate is absent from, channel left
unchanged when all its scores are equal); e and p always lie in [0,1], and b
(resp. c) lies in [0,1] provided its channel holds two distinct scores or all
its raw scores already lie in [0,1]. (The unconditional claim fails: an
all-equal channel is passed through unnormalized, see the counterexample.) -/
theorem merge_and_score_final_formula
    (query : List Char) (vec_candidates lex_candidates : CandidateDict)
    (bm25_weight cosine_weight exact_boost early_pos_boost : ℚ)
    (chunk_meta : Nat → Option ChunkMeta) (get_chunk_text : Nat → Option (List Char))
    (merge_k : Nat) (c : ScoredChunk)
    (hc : c ∈ merge_and_score query vec_candidates lex_candidates bm25_weight
      cosine_weight exact_boost early_pos_boost chunk_meta get_chunk_text merge_k) :
    c.score = bm25_weight * c.score_breakdown.bm25 +
        cosine_weight * c.score_breakdown.cosine +
        exact_boost * c.score_breakdown.exact +
        early_pos_boost * c.score_breakdown.position_bonus ∧
    c.score_breakdown.final = c.score ∧
    c.score_breakdown.bm25 = (dictGet (normalize_scores lex_candidates) c.chunk_id).getD 0 ∧
    c.score_breakdown.cosine = (dictGet (normalize_scores vec_candidates) c.chunk_id).getD 0 ∧
    (0 ≤ c.score_breakdown.exact ∧ c.score_breakdown.exact ≤ 1) ∧
    (0 ≤ c.score_breakdown.position_bonus ∧ c.score_breakdown.position_bonus ≤ 1) ∧
    ((∃ p ∈ lex_candidates, ∃ q ∈ lex_candidates, p.2 ≠ q.2) ∨
        (∀ p ∈ lex_candidates, 0 ≤ p.2 ∧ p.2 ≤ 1) →
      0 ≤ c.score_breakdown.bm25 ∧ c.score_breakdown.bm25 ≤ 1) ∧
    ((∃ p ∈ vec_candidates, ∃ q ∈ vec_candidates, p.2 ≠ q.2) ∨
        (∀ p ∈ vec_candidates, 0 ≤ p.2 ∧ p.2 ≤ 1) →
      0 ≤ c.score_breakdown.cosine ∧ c.score_breakdown.cosine ≤ 1) := by
  simp only [merge_and_score] at hc
  have hc2 := mem_sortByScoreDesc.mp (List.mem_of_mem_take hc)
  obtain ⟨cid, hmem, hf⟩ := List.mem_filterMap.mp hc2
  cases hm : chunk_meta cid with
  | none =>
    rw [hm] at hf
    simp at hf
  | some meta =>
    rw [hm] at hf
    cases ht : get_chunk_text cid with
    | none =>
      rw [ht] at hf
      simp at hf
    | some ctext =>
      rw [ht] at hf
      dsimp only at hf
      by_cases he : ctext = []
      · rw [if_pos he] at hf
        simp at hf
      · rw [if_neg he] at hf
        have hrec := Option.some.inj hf
        subst hrec
        refine ⟨rfl, rfl, rfl, rfl, ?_, ?_, ?_, ?_⟩
        · exact calculate_exact_match_bounds query ctext
        · exact calculate_position_bonus_bounds query ctext
        · intro hlex
          exact normalize_scores_bounds lex_candidates hlex cid
        · intro hvec
          exact normalize_scores_bounds vec_candidates hvec cid

/- Concrete fusion scenarios used by C1 and C3. In the S3 scenario of the
spec, candidate A is chunk 1, B is chunk 2, C is chunk 3; the catalog knows
every chunk with text "t" and the query is "q", so both bonus terms are 0,
and the boosts are passed as 0 ("no bonuses"). -/

theorem exact_match_q_t : calculate_exact_match ['q'] ['t'] = 0 := by
  have h1 : pyFind (pyLower ['t']) (pyStrip (pyLower ['q'])) = none := by decide
  have h2 : dedupFirst (pySplit (pyStrip (pyLower ['q']))) = [['q']] := by decide
  have h3 : pySplit (pyLower ['t']) = [['t']] := by decide
  have h4 : ([['q']] : List (List Char)).filter
      (fun w => w ∈ ([['t']] : List (List Char))) = [] := by decide
  simp only [calculate_exact_match, h1, h2, h3, h4, Option.isSome_none,
    Bool.false_eq_true, if_false, List.length_nil, List.length_cons]
  norm_num

theorem position_bonus_q_t : calculate_position_bonus ['q'] ['t'] = 0 := by
  have h1 : pyFind (pyLower ['t']) (pyStrip (pyLower ['q'])) = none := by decide
  simp [calculate_position_bonus, h1]

/-- Evaluation of the S3 fusion scenario: vec A:0.9 B:0.6, lex B:10 C:5,
default weights, zero boosts. -/
theorem s3_fusion_eval :
    merge_and_score ['q'] [(1, 9/10), (2, 6/10)] [(2, 10), (3, 5)]
      (55/100) (45/100) 0 0 (fun cid => some ⟨cid, "", 0⟩) (fun _ => some ['t']) 400 =
    [⟨2, 2, "", ['t'], 11/20, ⟨0, 1, 0, 0, 11/20⟩, 0⟩,
     ⟨1, 1, "", ['t'], 9/20, ⟨1, 0, 0, 0, 9/20⟩, 0⟩,
     ⟨3, 3, "", ['t'], 0, ⟨0, 0, 0, 0, 0⟩, 0⟩] := by
  have hvecn : normalize_scores [(1, 9/10), (2, 6/10)] = [(1, 1), (2, 0)] := by
    norm_num [normalize_scores]
  have hlexn : normalize_scores [(2, 10), (3, 5)] = [(2, 1), (3, 0)] := by
    norm_num [normalize_scores]
  have hids : dedupFirst (([(1, (9:ℚ)/10), (2, 6/10)] : CandidateDict).map Prod.fst ++
      ([(2, (10:ℚ)), (3, 5)] : CandidateDict).map Prod.fst) = [1, 2, 3] := by decide
  have hv1 : (dictGet [(1, (1:ℚ)), (2, 0)] 1).getD 0 = 1 := rfl
  have hv2 : (dictGet [(1, (1:ℚ)), (2, 0)] 2).getD 0 = 0 := rfl
  have hv3 : (dictGet [(1, (1:ℚ)), (2, 0)] 3).getD 0 = 0 := rfl
  have hl1 : (dictGet [(2, (1:ℚ)), (3, 0)] 1).getD 0 = 0 := rfl
  have hl2 : (dictGet [(2, (1:ℚ)), (3, 0)] 2).getD 0 = 1 := rfl
  have hl3 : (dictGet [(2, (1:ℚ)), (3, 0)] 3).getD 0 = 0 := rfl
  simp only [merge_and_score, hvecn, hlexn, hids, List.filterMap_cons, List.filterMap_nil,
    hv1, hv2, hv3, hl1, hl2, hl3, exact_match_q_t, position_bonus_q_t]
  norm_num [sortByScoreDesc, insertScoreDesc]

/-- Witness for C1 at the S3 input: the returned chunk for candidate B
satisfies the bm25 bound; the membership hypothesis is discharged by the
concrete evaluation and the lexical-channel proviso by its two distinct
scores. -/
theorem merge_and_score_final_formula_witness :
    0 ≤ (⟨2, 2, "", ['t'], 11/20, ⟨0, 1, 0, 0, 11/20⟩, 0⟩ : ScoredChunk).score_breakdown.bm25 ∧
    (⟨2, 2, "", ['t'], 11/20, ⟨0, 1, 0, 0, 11/20⟩, 0⟩ : ScoredChunk).score_breakdown.bm25 ≤ 1 := by
  have h := merge_and_score_final_formula ['q'] [(1, 9/10), (2, 6/10)] [(2, 10), (3, 5)]
    (55/100) (45/100) 0 0 (fun cid => some ⟨cid, "", 0⟩) (fun _ => some ['t']) 400
    ⟨2, 2, "", ['t'], 11/20, ⟨0, 1, 0, 0, 11/20⟩, 0⟩
    (by rw [s3_fusion_eval]; simp)
  exact h.2.2.2.2.2.2.1 (Or.inl ⟨(2, 10), by simp, (3, 5), by simp, by norm_num⟩)

/-- Evaluation of a one-candidate lexical channel with score 10: all scores
equal, so _normalize_scores returns it unchanged and the fused bm25 input is
10, outside [0,1]. -/
theorem single_lex_eval :
    merge_and_score ['q'] [] [(7, 10)] (55/100) (45/100) (20/100) (10/100)
      (fun cid => some ⟨cid, "", 0⟩) (fun _ => some ['t']) 400 =
    [⟨7, 7, "", ['t'], 11/2, ⟨0, 10, 0, 0, 11/2⟩, 0⟩] := by
  have hvn : normalize_scores ([] : CandidateDict) = [] := rfl
  have hlexn : normalize_scores [(7, 10)] = [(7, 10)] := by
    norm_num [normalize_scores]
  have hids : dedupFirst (([] : CandidateDict).map Prod.fst ++
      ([(7, (10:ℚ))] : CandidateDict).map Prod.fst) = [7] := by decide
  have hv7 : (dictGet ([] : CandidateDict) 7).getD 0 = 0 := rfl
  have hl7 : (dictGet [(7, (10:ℚ))] 7).getD 0 = 10 := rfl
  simp only [merge_and_score, hvn, hlexn, hids, List.filterMap_cons, List.filterMap_nil,
    hv7, hl7, exact_match_q_t, position_bonus_q_t]
  norm_num [sortByScoreDesc, insertScoreDesc]

/-- Counterexample to C1 as stated: in the channel-unchanged case the
normalized bm25 input can leave [0,1]. With lexical candidates B:10.0 alone,
the returned chunk has b = 10 > 1 while the claim asserts b in [0,1]. -/
theorem merge_and_score_bm25_outside_unit :
    ∃ c ∈ merge_and_score ['q'] [] [(7, 10)] (55/100) (45/100) (20/100) (10/100)
      (fun cid => some ⟨cid, "", 0⟩) (fun _ => some ['t']) 400,
      c.score_breakdown.bm25 = 10 ∧ ¬ c.score_breakdown.bm25 ≤ 1 := by
  refine ⟨⟨7, 7, "", ['t'], 11/2, ⟨0, 10, 0, 0, 11/2⟩, 0⟩, ?_, rfl, by norm_num⟩
  rw [single_lex_eval]
  simp

/-- C3 (amended): feeding the fuser vec A:0.9 B:0.6 and lex B:10.0 C:5.0
yields vec_norm A:1 B:0 and lex_norm B:1 C:0, and with default weights
0.55/0.45 and no bonuses the finals are A = 0.45, B = 0.55 and C = 0 —
C holds the lexical minimum, so its normalized score is 0, not 0.55 — and the
ranking is B > A > C. (A is chunk 1, B chunk 2, C chunk 3.) -/
theorem s3_scenario :
    normalize_scores [(1, 9/10), (2, 6/10)] = [(1, 1), (2, 0)] ∧
    normalize_scores [(2, 10), (3, 5)] = [(2, 1), (3, 0)] ∧
    (merge_and_score ['q'] [(1, 9/10), (2, 6/10)] [(2, 10), (3, 5)]
      (55/100) (45/100) 0 0 (fun cid => some ⟨cid, "", 0⟩) (fun _ => some ['t']) 400).map
        (fun c => (c.chunk_id, c.score)) = [(2, 11/20), (1, 9/20), (3, 0)] := by
  refine ⟨by norm_num [normalize_scores], by norm_num [normalize_scores], ?_⟩
  rw [s3_fusion_eval]
  rfl

/-- Counterexample to C3 as stated: the claim puts candidate C's final at
0.55, tied with B; in fact C's final is 0. -/
theorem s3_scenario_counterexample :
    ∃ c ∈ merge_and_score ['q'] [(1, 9/10), (2, 6/10)] [(2, 10), (3, 5)]
      (55/100) (45/100) 0 0 (fun cid => some ⟨cid, "", 0⟩) (fun _ => some ['t']) 400,
      c.chunk_id = 3 ∧ c.score ≠ 11/20 := by
  refine ⟨⟨3, 3, "", ['t'], 0, ⟨0, 0, 0, 0, 0⟩, 0⟩, ?_, rfl, by norm_num⟩
  rw [s3_fusion_eval]
  simp

/- ===================== Dedup-by-file and the search pipeline ===================== -/

/-- One step of building the file_best dict of
src/search/retriever.py, HybridRetriever.dedupe_by_file: append the chunk to
its file's list, keeping files in first-occurrence order as a Python dict
does. -/
def addToFileGroup : List (Nat × List ScoredChunk) → ScoredChunk → List (Nat × List ScoredChunk)
  | [], c => [(c.file_id, [c])]
  | g :: gs, c =>
    if g.1 = c.file_id then (g.1, g.2 ++ [c]) :: gs
    else g :: addToFileGroup gs c

/-- src/search/retriever.py, HybridRetriever.dedupe_by_file: group by file_id,
sort each group by score descending, keep the best max_results_per_file per
file, and re-sort the result globally by score. -/
def dedupe_by_file (scored_chunks : List ScoredChunk) (max_results_per_file : Nat) :
    List ScoredChunk :=
  let file_best := scored_chunks.foldl addToFileGroup []
  let deduped := (file_best.map
    (fun g => (sortByScoreDesc g.2).take max_results_per_file)).flatten
  sortByScoreDesc deduped

/-- The post-recall part of src/search/retriever.py, HybridRetriever.search:
merge and score, deduplicate by file with the DEFAULT max_results_per_file
of 1 (line 225 passes no argument), then return the top k. The two recall
channels are external IO; their outcome is taken as the candidate dicts. -/
def retriever_search (query : List Char) (vec_candidates lex_candidates : CandidateDict)
    (bm25_weight cosine_weight exact_boost early_pos_boost : ℚ)
    (chunk_meta : Nat → Option ChunkMeta) (get_chunk_text : Nat → Option (List Char))
    (merge_k k : Nat) : List ScoredChunk :=
  let scored_chunks := merge_and_score query vec_candidates lex_candidates bm25_weight
    cosine_weight exact_boost early_pos_boost chunk_meta get_chunk_text merge_k
  let deduped_chunks := dedupe_by_file scored_chunks 1
  deduped_chunks.take k

/-- The chunk-level result list of src/search/api.py, SearchAPI.run on the
success path: retriever.search followed by a second dedupe_by_file with the
requested max_results_per_file when it is positive (lines 79-83). -/
def api_result_chunks (query : List Char) (vec_candidates lex_candidates : CandidateDict)
    (bm25_weight cosine_weight exact_boost early_pos_boost : ℚ)
    (chunk_meta : Nat → Option ChunkMeta) (get_chunk_text : Nat → Option (List Char))
    (merge_k k max_results_per_file : Nat) : List ScoredChunk :=
  let scored_chunks := retriever_search query vec_candidates lex_candidates bm25_weight
    cosine_weight exact_boost early_pos_boost chunk_meta get_chunk_text merge_k k
  if 0 < max_results_per_file then dedupe_by_file scored_chunks max_results_per_file
  else scored_chunks

/-- Catalog of the C6 scenario: chunks 1 and 2 belong to file 10, chunk 3 to
file 20. -/
def c6_meta : Nat → Option ChunkMeta :=
  fun cid => if cid ≤ 2 then some ⟨10, "", 0⟩ else some ⟨20, "", 0⟩

/-- Fusion output of the C6 scenario: lexical candidates 1:3.0, 2:2.0, 3:1.0
rank chunks 1 and 2 (both of file 10) as the top two results. -/
theorem c6_fusion_eval :
    merge_and_score ['q'] [] [(1, 3), (2, 2), (3, 1)] (55/100) (45/100) (20/100) (10/100)
      c6_meta (fun _ => some ['t']) 400 =
    [⟨1, 10, "", ['t'], 11/20, ⟨0, 1, 0, 0, 11/20⟩, 0⟩,
     ⟨2, 10, "", ['t'], 11/40, ⟨0, 1/2, 0, 0, 11/40⟩, 0⟩,
     ⟨3, 20, "", ['t'], 0, ⟨0, 0, 0, 0, 0⟩, 0⟩] := by
  have hvn : normalize_scores ([] : CandidateDict) = [] := rfl
  have hlexn : normalize_scores [(1, 3), (2, 2), (3, 1)] = [(1, 1), (2, 1/2), (3, 0)] := by
    norm_num [normalize_scores]
  have hids : dedupFirst (([] : CandidateDict).map Prod.fst ++
      ([(1, (3:ℚ)), (2, 2), (3, 1)] : CandidateDict).map Prod.fst) = [1, 2, 3] := by decide
  have hv1 : (dictGet ([] : CandidateDict) 1).getD 0 = 0 := rfl
  have hv2 : (dictGet ([] : CandidateDict) 2).getD 0 = 0 := rfl
  have hv3 : (dictGet ([] : CandidateDict) 3).getD 0 = 0 := rfl
  have hl1 : (dictGet [(1, (1:ℚ)), (2, 1/2), (3, 0)] 1).getD 0 = 1 := rfl
  have hl2 : (dictGet [(1, (1:ℚ)), (2, 1/2), (3, 0)] 2).getD 0 = 1/2 := rfl
  have hl3 : (dictGet [(1, (1:ℚ)), (2, 1/2), (3, 0)] 3).getD 0 = 0 := rfl
  have hm1 : c6_meta 1 = some ⟨10, "", 0⟩ := rfl
  have hm2 : c6_meta 2 = some ⟨10, "", 0⟩ := rfl
  have hm3 : c6_meta 3 = some ⟨20, "", 0⟩ := rfl
  simp only [merge_and_score, hvn, hlexn, hids, List.filterMap_cons, List.filterMap_nil,
    hv1, hv2, hv3, hl1, hl2, hl3, hm1, hm2, hm3, exact_match_q_t, position_bonus_q_t]
  norm_num [sortByScoreDesc, insertScoreDesc]

/-- C6 evaluated at the failing input: although chunks 1 and 2 of file 10 are
the two top-ranked fusion results and max_results_per_file = 2 > 1 is
requested, the pipeline returns only one chunk of file 10, because
retriever.search has already deduplicated with the default of 1 before the
API-level dedupe sees the option. -/
theorem max_results_per_file_ineffective :
    (merge_and_score ['q'] [] [(1, 3), (2, 2), (3, 1)] (55/100) (45/100) (20/100) (10/100)
      c6_meta (fun _ => some ['t']) 400).map (fun c => (c.chunk_id, c.file_id)) =
      [(1, 10), (2, 10), (3, 20)] ∧
    (api_result_chunks ['q'] [] [(1, 3), (2, 2), (3, 1)] (55/100) (45/100) (20/100) (10/100)
      c6_meta (fun _ => some ['t']) 400 50 2).map (fun c => (c.chunk_id, c.file_id)) =
      [(1, 10), (3, 20)] ∧
    ((api_result_chunks ['q'] [] [(1, 3), (2, 2), (3, 1)] (55/100) (45/100) (20/100) (10/100)
      c6_meta (fun _ => some ['t']) 400 50 2).filter (fun c => c.file_id = 10)).length = 1 := by
  have heval := c6_fusion_eval
  refine ⟨by rw [heval]; rfl, ?_, ?_⟩
  · simp only [api_result_chunks, retriever_search, heval]
    norm_num [dedupe_by_file, addToFileGroup, sortByScoreDesc, insertScoreDesc]
  · simp only [api_result_chunks, retriever_search, heval]
    norm_num [dedupe_by_file, addToFileGroup, sortByScoreDesc, insertScoreDesc]

/- ===================== SearchAPI: response shaping ===================== -/

/-- The structured response dict built by src/search/api.py, SearchAPI.run.
The items are abstract (built by _create_search_hit, a pure mapping of each
chunk); search_time and timestamp come from the wall clock, taken as
parameters. The optional error key is an Option. -/
structure ApiResponse (α : Type) where
  query : List Char
  total_hits : Nat
  page : Nat
  per_page : Nat
  total_pages : Nat
  has_next : Bool
  has_prev : Bool
  items : List α
  search_time : ℚ
  cache_hit : Bool
  error : Option String
  timestamp : Int
deriving Repr

/-- src/search/api.py, SearchAPI.run. The model makes the external effects
parameters: cached is the cache lookup outcome, retrieval the outcome of
self.retriever.search (a result list, or the exception it raised, which the
except-block of run turns into an error response), mkHit the per-chunk hit
construction, search_time and timestamp the clock. Python raises
ZeroDivisionError on per_page = 0 at the total_pages division; it is caught
by the same except-block, so that branch is modelled explicitly. The
function is total: every path yields a structured ApiResponse, which is the
never-raises guarantee of the source. -/
def api_run (α : Type) (query : List Char) (page per_page : Nat)
    (cached : Option (ApiResponse α)) (retrieval : Except String (List ScoredChunk))
    (max_results_per_file : Nat) (mkHit : ScoredChunk → α)
    (search_time : ℚ) (timestamp : Int) : ApiResponse α :=
  match cached with
  | some r => { r with cache_hit := true }
  | none =>
    match retrieval with
    | .error e =>
      { query := query, total_hits := 0, page := page, per_page := per_page,
        total_pages := 0, has_next := false, has_prev := false, items := [],
        search_time := search_time, cache_hit := false, error := some e,
        timestamp := timestamp }
    | .ok chunks =>
      let scored_chunks :=
        if 0 < max_results_per_file then dedupe_by_file chunks max_results_per_file
        else chunks
      let search_hits := scored_chunks.map mkHit
      let total_hits := search_hits.length
      let start_idx := (page - 1) * per_page
      let paginated_hits := (search_hits.drop start_idx).take per_page
      if per_page = 0 then
        -- total_pages = (total_hits + per_page - 1) // per_page raises
        -- ZeroDivisionError, caught by the except-block of run
        { query := query, total_hits := 0, page := page, per_page := per_page,
          total_pages := 0, has_next := false, has_prev := false, items := [],
          search_time := search_time, cache_hit := false,
          error := some "division by zero", timestamp := timestamp }
      else
        let total_pages := (total_hits + per_page - 1) / per_page
        { query := query, total_hits := total_hits, page := page, per_page := per_page,
          total_pages := total_pages, has_next := decide (page < total_pages),
          has_prev := decide (1 < page), items := paginated_hits,
          search_time := search_time, cache_hit := false, error := none,
          timestamp := timestamp }

/-- Nat ceiling division agrees with the rational ceiling. -/
theorem nat_ceil_div (T P : Nat) (hP : 0 < P) :
    (((T + P - 1) / P : Nat) : Int) = ⌈(T : ℚ) / (P : ℚ)⌉ := by
  rw [eq_comm, Int.ceil_eq_iff]
  have hP' : (0 : ℚ) < (P : ℚ) := by exact_mod_cast hP
  have hmod := Nat.div_add_mod (T + P - 1) P
  have hlt : (T + P - 1) % P < P := Nat.mod_lt _ hP
  set n := (T + P - 1) / P with hn
  have h1 : T ≤ P * n := by omega
  have h2 : P * n < T + P := by omega
  constructor
  · rw [lt_div_iff₀ hP']
    have h3 : ((P * n : Nat) : ℚ) < ((T + P : Nat) : ℚ) := by exact_mod_cast h2
    push_cast at h3 ⊢
    nlinarith
  · rw [div_le_iff₀ hP']
    have h3 : ((T : Nat) : ℚ) ≤ ((P * n : Nat) : ℚ) := by exact_mod_cast h1
    push_cast at h3 ⊢
    nlinarith

/-- C7: on the success path with per_page >= 1 and a 1-based page, the
response satisfies total_pages = ceil(total_hits / per_page),
has_next iff page < total_pages, has_prev iff page > 1, and items is the
slice of the ranked hits from (page-1)*per_page to page*per_page. -/
theorem api_run_pagination (α : Type) (query : List Char) (page per_page : Nat)
    (cached : Option (ApiResponse α)) (retrieval : Except String (List ScoredChunk))
    (max_results_per_file : Nat) (mkHit : ScoredChunk → α)
    (search_time : ℚ) (timestamp : Int) (chunks : List ScoredChunk)
    (hpp : 1 ≤ per_page) (hpage : 1 ≤ page)
    (hcache : cached = none) (hret : retrieval = .ok chunks) :
    (api_run α query page per_page cached retrieval max_results_per_file mkHit
        search_time timestamp).total_pages =
      ((api_run α query page per_page cached retrieval max_results_per_file mkHit
        search_time timestamp).total_hits + per_page - 1) / per_page ∧
    (((api_run α query page per_page cached retrieval max_results_per_file mkHit
        search_time timestamp).total_pages : Int) =
      ⌈((api_run α query page per_page cached retrieval max_results_per_file mkHit
        search_time timestamp).total_hits : ℚ) / (per_page : ℚ)⌉) ∧
    ((api_run α query page per_page cached retrieval max_results_per_file mkHit
        search_time timestamp).has_next = true ↔
      page < (api_run α query page per_page cached retrieval max_results_per_file mkHit
        search_time timestamp).total_pages) ∧
    ((api_run α query page per_page cached retrieval max_results_per_file mkHit
        search_time timestamp).has_prev = true ↔ 1 < page) ∧
    (api_run α query page per_page cached retrieval max_results_per_file mkHit
        search_time timestamp).items =
      (((if 0 < max_results_per_file then dedupe_by_file chunks max_results_per_file
          else chunks).map mkHit).drop ((page - 1) * per_page)).take per_page := by
  subst hcache hret
  have hpp0 : ¬ per_page = 0 := by omega
  simp only [api_run, if_neg hpp0]
  refine ⟨trivial, ?_, ?_, ?_, trivial⟩
  · exact nat_ceil_div _ per_page (by omega)
  · simp
  · simp

/-- Witness for C7 at a concrete input: empty result list, page 1,
per_page 2. -/
theorem api_run_pagination_witness :
    (1 ≤ 2 ∧ 1 ≤ 1) ∧
    (api_run Nat ['q'] 1 2 none (.ok []) 1 (fun c => c.chunk_id) 0 0).total_pages =
      ((api_run Nat ['q'] 1 2 none (.ok []) 1 (fun c => c.chunk_id) 0 0).total_hits + 2 - 1) / 2 ∧
    ((api_run Nat ['q'] 1 2 none (.ok []) 1 (fun c => c.chunk_id) 0 0).has_prev = true ↔ 1 < 1) := by
  have h := api_run_pagination Nat ['q'] 1 2 none (.ok []) 1 (fun c => c.chunk_id) 0 0 []
    (by omega) (by omega) rfl rfl
  exact ⟨⟨by omega, by omega⟩, h.1, h.2.2.2.1⟩

/-- C8: SearchAPI.run is modelled as a total function (the source never lets
an exception escape: the retrieval call sits in a try/except and the
cache path cannot raise), and every path returns the full structured
response. On the failure path the error field carries the exception text and
items is empty; on the success path with a positive per_page the error field
is absent; a zero per_page makes the pagination division raise inside the
try-block, which again yields a populated error and empty items. -/
theorem api_run_failure_shape (α : Type) (query : List Char) (page per_page : Nat)
    (cached : Option (ApiResponse α)) (retrieval : Except String (List ScoredChunk))
    (max_results_per_file : Nat) (mkHit : ScoredChunk → α)
    (search_time : ℚ) (timestamp : Int) :
    (cached = none → ∀ e, retrieval = .error e →
      api_run α query page per_page cached retrieval max_results_per_file mkHit
          search_time timestamp =
        { query := query, total_hits := 0, page := page, per_page := per_page,
          total_pages := 0, has_next := false, has_prev := false, items := [],
          search_time := search_time, cache_hit := false, error := some e,
          timestamp := timestamp }) ∧
    (cached = none → ∀ chunks, retrieval = .ok chunks → 1 ≤ per_page →
      (api_run α query page per_page cached retrieval max_results_per_file mkHit
          search_time timestamp).error = none) ∧
    (cached = none → ∀ chunks, retrieval = .ok chunks → per_page = 0 →
      (api_run α query page per_page cached retrieval max_results_per_file mkHit
          search_time timestamp).error = some "division by zero" ∧
      (api_run α query page per_page cached retrieval max_results_per_file mkHit
          search_time timestamp).items = []) ∧
    (∀ r0, cached = some r0 →
      api_run α query page per_page cached retrieval max_results_per_file mkHit
          search_time timestamp = { r0 with cache_hit := true }) := by
  refine ⟨?_, ?_, ?_, ?_⟩
  · intro hcache e hret
    subst hcache hret
    rfl
  · intro hcache chunks hret hpp
    subst hcache hret
    have hpp0 : ¬ per_page = 0 := by omega
    simp only [api_run, if_neg hpp0]
  · intro hcache chunks hret hpp
    subst hcache hret hpp
    simp only [api_run, if_pos rfl]
    exact ⟨rfl, rfl⟩
  · intro r0 hcache
    subst hcache
    rfl

/-- Witness for C8 at a concrete input: a failing retrieval yields the
structured error response. -/
theorem api_run_failure_shape_witness :
    api_run Nat ['q'] 1 10 none (.error "qdrant down") 1 (fun c => c.chunk_id) 0 0 =
      { query := ['q'], total_hits := 0, page := 1, per_page := 10,
        total_pages := 0, has_next := false, has_prev := false, items := [],
        search_time := 0, cache_hit := false, error := some "qdrant down",
        timestamp := 0 } := by
  exact (api_run_failure_shape Nat ['q'] 1 10 none (.error "qdrant down") 1
    (fun c => c.chunk_id) 0 0).1 rfl "qdrant down" rfl

/- ===================== Frontier: BFS state ===================== -/

/-- A filesystem node as the frontier sees it: its (device, inode) pair from
stat, whether it is a directory, and its children in iterdir order. The
filesystem is external, so it is a parameter of every operation. -/
structure FsNode where
  devino : Nat × Nat
  isDir : Bool
  children : List String
deriving DecidableEq, Repr

/-- src/search/types.py, FrontierState: the BFS queue, the seen map keyed by
path with (device, inode) values, counters and the error log. The seen dict
is an insertion-ordered association list. -/
structure FrontierState where
  queue : List String
  seen : List (String × (Nat × Nat))
  processed_files : Nat
  processed_dirs : Nat
  errors : List String
deriving DecidableEq, Repr

/-- Lookup in the seen dict. -/
def seenGet (seen : List (String × (Nat × Nat))) (p : String) : Option (Nat × Nat) :=
  (seen.find? (fun q => q.1 == p)).map Prod.snd

/-- Python dict assignment frontier.seen[path] = device_inode: overwrite in
place, or append a new entry. -/
def seenSet (seen : List (String × (Nat × Nat))) (p : String) (di : Nat × Nat) :
    List (String × (Nat × Nat)) :=
  if (seen.find? (fun q => q.1 == p)).isSome then
    seen.map (fun q => if q.1 = p then (p, di) else q)
  else seen ++ [(p, di)]

/-- Seeding step of src/search/indexer.py, BFSIndexer.run_bfs_slice (lines
44-48): when the queue is empty, append every root that exists. Each call of
run_bfs_slice performs this before processing. -/
def seedRoots (fs : String → Option FsNode) (roots : List String)
    (st : FrontierState) : FrontierState :=
  if st.queue = [] then
    { st with queue := st.queue ++ roots.filter (fun r => (fs r).isSome) }
  else st

/-- One dequeue-and-process step: run_bfs_slice pops the queue front and
_process_item handles it. A missing path is only logged; a path already in
seen with the same (device, inode) is skipped; a file is ingested and
processed_files incremented; a directory enqueues its non-hidden,
non-excluded children (unless the directory itself matches an exclude
pattern) and processed_dirs is incremented; finally the path is marked seen.
hidden models child.name.startswith('.'), excluded models _should_exclude. -/
def processStep (fs : String → Option FsNode) (hidden excluded : String → Bool)
    (st : FrontierState) : FrontierState :=
  match hq : st.queue with
  | [] => st
  | item_path :: rest =>
    let st1 : FrontierState := { st with queue := rest }
    match fs item_path with
    | none => st1
    | some node =>
      let device_inode := node.devino
      if seenGet st1.seen item_path = some device_inode then st1
      else if node.isDir then
        let st2 : FrontierState :=
          if excluded item_path then st1
          else { st1 with queue := st1.queue ++
            node.children.filter (fun child => !hidden child && !excluded child) }
        { st2 with seen := seenSet st2.seen item_path device_inode,
                   processed_dirs := st2.processed_dirs + 1 }
      else
        { st1 with seen := seenSet st1.seen item_path device_inode,
                   processed_files := st1.processed_files + 1 }

/-- Frontier states reachable by the indexer's operations, starting from the
empty frontier. Loading a checkpoint re-enters a previously saved (hence
reachable) state, so it adds nothing beyond this closure; seeding happens at
the start of every run_bfs_slice call; each processed item is one step. -/
inductive FrontierReach (fs : String → Option FsNode) (hidden excluded : String → Bool) :
    FrontierState → Prop
  | start : FrontierReach fs hidden excluded ⟨[], [], 0, 0, []⟩
  | seed (roots : List String) {st : FrontierState} :
      FrontierReach fs hidden excluded st →
      FrontierReach fs hidden excluded (seedRoots fs roots st)
  | step {st : FrontierState} :
      FrontierReach fs hidden excluded st →
      FrontierReach fs hidden excluded (processStep fs hidden excluded st)

/-- The one-directory filesystem of the C4 counterexample: a single root
directory "r" with no children, device-inode (0, 0). -/
def c4_fs : String → Option FsNode :=
  fun p => if p = "r" then some ⟨(0, 0), true, []⟩ else none

/-- No hidden names and no exclude patterns in the C4 scenario. -/
def c4_none : String → Bool :=
  fun _ => false

/-- Counterexample to C4 as stated: seeding "r", processing it, then seeding
again (the next run_bfs_slice call over the drained queue) reaches a state
whose queue contains "r" while seen already maps "r" to its unchanged
(device, inode) — the claimed queue/seen disjointness is not an invariant. -/
theorem frontier_queue_seen_counterexample :
    FrontierReach c4_fs c4_none c4_none ⟨["r"], [("r", (0, 0))], 0, 1, []⟩ ∧
    "r" ∈ (⟨["r"], [("r", (0, 0))], 0, 1, []⟩ : FrontierState).queue ∧
    seenGet (⟨["r"], [("r", (0, 0))], 0, 1, []⟩ : FrontierState).seen "r" = some (0, 0) ∧
    (c4_fs "r").map FsNode.devino = some (0, 0) := by
  refine ⟨?_, by simp, by decide, by decide⟩
  have h1 := @FrontierReach.start c4_fs c4_none c4_none
  have h2 := FrontierReach.seed ["r"] h1
  have h3 := FrontierReach.step h2
  have h4 := FrontierReach.seed ["r"] h3
  have heq : seedRoots c4_fs ["r"]
      (processStep c4_fs c4_none c4_none (seedRoots c4_fs ["r"] ⟨[], [], 0, 0, []⟩)) =
      ⟨["r"], [("r", (0, 0))], 0, 1, []⟩ := by decide
  exact heq ▸ h4

/-- C4 (amended): the seen map does not keep seen paths out of the queue
(roots are re-seeded into it, see the counterexample); the guarantee the
dequeue-side check provides instead is that a queued path whose (device,
inode) already appears in seen with the same value is dropped when dequeued:
the step only pops it, changing no other component and enqueuing nothing. -/
theorem processStep_skips_seen (fs : String → Option FsNode)
    (hidden excluded : String → Bool) (st : FrontierState) (p : String)
    (rest : List String) (node : FsNode)
    (hq : st.queue = p :: rest) (hfs : fs p = some node)
    (hseen : seenGet st.seen p = some node.devino) :
    processStep fs hidden excluded st = { st with queue := rest } := by
  rcases st with ⟨q, seen, pf, pd, er⟩
  simp only at hq
  subst hq
  simp only at hseen
  simp only [processStep, hfs, hseen]
  simp

/-- Witness for C4's amended statement at a concrete input: dequeuing the
re-seeded, already-seen root only pops the queue. -/
theorem processStep_skips_seen_witness :
    processStep c4_fs c4_none c4_none ⟨["r"], [("r", (0, 0))], 0, 1, []⟩ =
      ⟨[], [("r", (0, 0))], 0, 1, []⟩ := by
  have h := processStep_skips_seen c4_fs c4_none c4_none
    ⟨["r"], [("r", (0, 0))], 0, 1, []⟩ "r" [] ⟨(0, 0), true, []⟩
    rfl (by decide) (by decide)
  exact h

/- ===================== Indexer: change detection (C2) ===================== -/

/-- The filesystem inputs of one _process_file call: the path, the stat
fields used for the metadata file_id, and the raw bytes on disk. -/
structure DiskFile where
  path : String
  mtime : Int
  size : Int
  raw : List Nat
deriving DecidableEq, Repr

/-- Result of one modelled _process_file call: the updated files table
(file_id to stored sha256 digest), whether the file was skipped, and the
number of chunks created. -/
structure ProcessFileResult where
  files : String → Option (List Nat)
  skipped : Bool
  chunks_created : Nat

/-- src/search/indexer.py, BFSIndexer._process_file (lines 100-163):
extension and exclude filters, metadata file_id, the unchanged-check that
compares generate_file_sha256 (a SHA-256 of the RAW FILE BYTES, src/search/
ids.py lines 23-38) against the sha256 stored by upsert_file (a SHA-256 of
the EXTRACTED TEXT's UTF-8 encoding, line 144), then extraction, catalog
update and chunking. External collaborators are parameters: allowedExt
(suffix in allow_exts), excludedPat (_should_exclude), sha256 (hashlib),
encode (str.encode), extract (_extract_text), sha1hex (hashlib.sha1 for
ids.file_id), chunkIdF and chunkShaF (chunk bookkeeping). Vector and FTS
insertion always accompany chunk creation and are summarized by
chunks_created. -/
def process_file (allowedExt excludedPat : String → Bool)
    (sha256 : List Nat → List Nat) (encode : List Char → List Nat)
    (extract : DiskFile → Option (List Char)) (sha1hex : String → String)
    (chunkIdF : String → Nat → String) (chunkShaF : List Char → String)
    (max_tokens overlap : Nat)
    (files : String → Option (List Nat)) (f : DiskFile) : ProcessFileResult :=
  if !allowedExt f.path then ⟨files, true, 0⟩
  else if excludedPat f.path then ⟨files, true, 0⟩
  else
    let fid := ids_file_id sha1hex f.path f.mtime f.size
    let skip_unchanged :=
      match files fid with
      | some stored => sha256 f.raw == stored
      | none => false
    if skip_unchanged then ⟨files, true, 0⟩
    else
      match extract f with
      | none => ⟨files, true, 0⟩
      | some text =>
        if text = [] then ⟨files, true, 0⟩
        else
          let new_sha256 := sha256 (encode text)
          let files' := fun id => if id = fid then some new_sha256 else files id
          let chunks := chunk_text chunkIdF chunkShaF max_tokens overlap text
            f.path fid f.mtime
          ⟨files', false, chunks.length⟩

/-- Raw bytes of the C2 scenario file: the UTF-8 encoding of an HTML source
whose extracted text is "hi". -/
def c2_raw : List Nat :=
  "<p>hi</p>".toList.map Char.toNat

/-- The extractor of the C2 scenario: HTML extraction strips the markup. -/
def c2_extract : DiskFile → Option (List Char) :=
  fun f => if f.raw = c2_raw then some ['h', 'i'] else none

/-- str.encode for the scenario's ASCII text. -/
def c2_encode : List Char → List Nat :=
  fun t => t.map Char.toNat

/-- A stand-in injective digest for the scenario (the control flow only
compares digests for equality, so any function distinguishing the two byte
strings exhibits the behavior of the real SHA-256). -/
def c2_digest : List Nat → List Nat :=
  fun bs => bs

/-- The scenario file, unchanged between the two runs. -/
def c2_file : DiskFile :=
  ⟨"/docs/a.html", 1700000000, 9, c2_raw⟩

/-- Always-allowed extension filter of the C2 scenario. -/
def c2_true : String → Bool :=
  fun _ => true

/-- Never-excluded filter of the C2 scenario. -/
def c2_false : String → Bool :=
  fun _ => false

/-- C2 evaluated at the failing input: indexing the unchanged HTML file a
second time does NOT skip — the freshly computed hash is over the raw bytes
while the stored one is over the extracted text, and the two differ — so the
second run re-extracts and re-creates its chunk instead of creating zero. -/
theorem second_run_reprocesses_unchanged_file :
    (process_file c2_true c2_false c2_digest c2_encode c2_extract id
      (fun _ _ => "") (fun _ => "") 1200 80 (fun _ => none) c2_file).chunks_created = 1 ∧
    (process_file c2_true c2_false c2_digest c2_encode c2_extract id
      (fun _ _ => "") (fun _ => "") 1200 80
      (process_file c2_true c2_false c2_digest c2_encode c2_extract id
        (fun _ _ => "") (fun _ => "") 1200 80 (fun _ => none) c2_file).files
      c2_file).skipped = false ∧
    (process_file c2_true c2_false c2_digest c2_encode c2_extract id
      (fun _ _ => "") (fun _ => "") 1200 80
      (process_file c2_true c2_false c2_digest c2_encode c2_extract id
        (fun _ _ => "") (fun _ => "") 1200 80 (fun _ => none) c2_file).files
      c2_file).chunks_created = 1 ∧
    c2_digest c2_file.raw ≠ c2_digest (c2_encode ['h', 'i']) := by
  refine ⟨by decide, by decide, by decide, by decide⟩

end CBFS
